import Mathlib

/-!
Shallow embedding of the core of `mlp_483.py`: a two-layer MLP classifier,
its weighted cross-entropy loss, the momentum-SGD optimizer step, the
training loop, the evaluation loop, and the surrounding metric / class-weight
computations.  Numeric tensors are modelled over an ordered field (instantiated
at `ℝ` for the analytic claims and at `ℚ` for concrete evaluations); machine
floats are idealised as exact field elements.
-/

/-! ### Dense layers and the two-layer classifier (`class MLP`, lines 19-40) -/

/-- An affine layer `nn.Linear(in_features, out_features)`: PyTorch stores the
weight as a `[out_features, in_features]` matrix and maps a batch row-wise by
`y = x Wᵀ + b` (fields of `MLP.__init__`, lines 24-25). -/
structure Linear (α : Type) (inF outF : ℕ) where
  weight : Fin outF → Fin inF → α
  bias : Fin outF → α

/-- Row-wise application of an affine layer to an `[N, inF]` batch. -/
def Linear.apply {α : Type} [CommRing α] {N inF outF : ℕ}
    (l : Linear α inF outF) (x : Fin N → Fin inF → α) :
    Fin N → Fin outF → α :=
  fun i j => (∑ k, x i k * l.weight j k) + l.bias j

/-- Elementwise rectifier `AF.relu`: `max 0 v`. -/
def relu {α : Type} [LinearOrder α] [Zero α] (v : α) : α := max 0 v

/-- The classifier's trainable state: `self.hidden1` and `self.output`
(lines 24-25 of `mlp_483.py`). -/
structure MLP (α : Type) (inF hid C : ℕ) where
  hidden1 : Linear α inF hid
  output : Linear α hid C

/-- The forward pass (lines 32-40): `h1_out = relu(hidden1(x))`;
`output = output(h1_out)`; the raw scores are returned with no further
activation. -/
def MLP.forward {α : Type} [LinearOrderedField α] {N inF hid C : ℕ}
    (m : MLP α inF hid C) (x : Fin N → Fin inF → α) :
    Fin N → Fin C → α :=
  m.output.apply (fun i j => relu ((m.hidden1.apply x) i j))

/-! ### Momentum SGD (`optim.SGD(..., lr=alpha, momentum=gamma)`, lines 275-280) -/

/-- Learning rate `alpha` (line 276). -/
def alphaLR : ℚ := 0.008

/-- Momentum coefficient `gamma` (line 277). -/
def gammaMom : ℚ := 0.5

/-- One `optimizer.step()` on a single parameter tensor, following PyTorch's
SGD-with-momentum rule (dampening 0, no Nesterov, no weight decay): the
momentum buffer is lazily created as a copy of the gradient on the first step
(`v = none`), afterwards `v ← mom*v + g`, and then `θ ← θ - lr*v`.  The tensor
is an arbitrary index family `ι → α`, updated elementwise. -/
def sgdStep {α : Type} [Field α] {ι : Type} (lr mom : α)
    (θ : ι → α) (v : Option (ι → α)) (g : ι → α) : (ι → α) × (ι → α) :=
  let buf : ι → α :=
    match v with
    | none => g
    | some b => fun i => mom * b i + g i
  (fun i => θ i - lr * buf i, buf)

/-! ### Class-weight computation (lines 263-268)

`class_counts = np.bincount(y_train)`; `w0 = total / (2*class_counts[0])`;
`w1 = total / (2*class_counts[1])`.  numpy's `bincount` returns a vector of
length `max(y_train)+1` (empty for an empty input); indexing past its end
raises `IndexError`; integer true-division by zero does not raise but yields
`inf` (or `nan` for `0/0`) and emits a `RuntimeWarning`. -/

/-- Result of a numpy float computation: a finite value, `inf`, or `nan`. -/
inductive NpFloat : Type
  | finite (q : ℚ)
  | inf
  | nan
deriving DecidableEq, Repr

/-- numpy `bincount`: entry `c` counts the occurrences of `c`; the vector is
indexed `0 .. max(ys)`, and is empty when `ys` is empty. -/
def npBincount (ys : List ℕ) : List ℕ :=
  if ys = [] then [] else (List.range (ys.foldr max 0 + 1)).map fun c => ys.count c

/-- numpy array indexing: out-of-range access raises `IndexError`. -/
def npGet (xs : List ℕ) (i : ℕ) : Except String ℕ :=
  if h : i < xs.length then .ok (xs.get ⟨i, h⟩) else .error "IndexError"

/-- Python/numpy true division of non-negative integers, paired with the
flag `true` when a `RuntimeWarning` is emitted (division by zero). -/
def npDivNat (a b : ℕ) : NpFloat × Bool :=
  if b = 0 then (if a = 0 then (.nan, true) else (.inf, true))
  else (.finite ((a : ℚ) / (b : ℚ)), false)

/-- The class-weight computation of lines 263-266: for each of the two
classes, `w[c] = total_samples / (2 * class_counts[c])`, threading numpy's
`IndexError` and returning each weight with its division-warning flag. -/
def computeClassWeights (ys : List ℕ) :
    Except String ((NpFloat × Bool) × (NpFloat × Bool)) :=
  (npGet (npBincount ys) 0).bind fun c0 =>
    (npGet (npBincount ys) 1).bind fun c1 =>
      .ok (npDivNat ys.length (2 * c0), npDivNat ys.length (2 * c1))

/-! ### Precision metric (line 309)

`precision_score(true_labels, predicted_labels, zero_division=1)` —
sklearn's binary precision for positive class `1`:
`TP / (TP + FP)`, falling back to the `zero_division` argument when no
positive predictions exist. -/

/-- True positives for class 1: pairs with true label 1 and predicted 1. -/
def truePos (yTrue yPred : List ℕ) : ℕ :=
  (yTrue.zip yPred).countP fun p => p.1 = 1 && p.2 = 1

/-- False positives for class 1: pairs with true label not 1 but predicted 1. -/
def falsePos (yTrue yPred : List ℕ) : ℕ :=
  (yTrue.zip yPred).countP fun p => p.1 ≠ 1 && p.2 = 1

/-- sklearn `precision_score` with positive class 1 and an explicit
`zero_division` fallback: total, never raising. -/
def precision_score (yTrue yPred : List ℕ) (zeroDiv : ℚ) : ℚ :=
  if truePos yTrue yPred + falsePos yTrue yPred = 0 then zeroDiv
  else (truePos yTrue yPred : ℚ) / ((truePos yTrue yPred + falsePos yTrue yPred : ℕ) : ℚ)

/-! ### Weighted cross-entropy loss (`nn.CrossEntropyLoss(weight=weights)`, line 270)

PyTorch's `CrossEntropyLoss` computes, for score row `x` and target `y`,
the per-sample loss `w_y * (log ∑_j exp x_j - x_y)`, and with the default
`reduction='mean'` in the presence of class weights divides the summed
per-sample losses by the sum `∑_n w_{y_n}` of the selected weights. -/

/-- Log-sum-exp of a score row. -/
noncomputable def logSumExp {C : ℕ} (v : Fin C → ℝ) : ℝ :=
  Real.log (∑ j, Real.exp (v j))

/-- Per-sample weighted cross-entropy: `w_y * (log ∑_j exp x_j - x_y)`. -/
noncomputable def sampleCE {C : ℕ} (w : Fin C → ℝ) (x : Fin C → ℝ) (y : Fin C) : ℝ :=
  w y * (logSumExp x - x y)

/-- Batch loss of `nn.CrossEntropyLoss(weight=w)` with the default mean
reduction: the weighted per-sample losses summed and divided by the sum of
the selected class weights. -/
noncomputable def crossEntropyLoss {N C : ℕ} (w : Fin C → ℝ)
    (x : Fin N → Fin C → ℝ) (y : Fin N → Fin C) : ℝ :=
  (∑ i, sampleCE w (x i) (y i)) / (∑ i, w (y i))

/-- Modelled from the spec: the loss formula the specification asserts —
the plain arithmetic mean over the `N` samples of
`w[y_i] * (-log(exp x_{i,y_i} / ∑_j exp x_{i,j}))` — stated verbatim for
comparison against `crossEntropyLoss`. -/
noncomputable def specMeanLoss {N C : ℕ} (w : Fin C → ℝ)
    (x : Fin N → Fin C → ℝ) (y : Fin N → Fin C) : ℝ :=
  (∑ i, w (y i) * (-(Real.log (Real.exp (x i (y i)) / ∑ j, Real.exp (x i j))))) / (N : ℝ)

/-! ### Training loop (`train_ANN_model`, lines 67-102)

The source function is parameterised over the model, the loss function and
the optimizer; the embedding mirrors that with a record of those callables.
The per-batch body (lines 88-96) is, in source order:
`optimizer.zero_grad()`; `output = ANN_model(features)`;
`loss = loss_func(output, labels)`; `train_losses.append(loss.item())`;
`loss.backward()`; `optimizer.step()`.  `backward` accumulates gradients
into the (just-zeroed) accumulators; `step` consumes them. -/

/-- Observable per-batch operations of the training-loop body, for stating
their order of occurrence. -/
inductive TrainEvent : Type
  | zeroGradE
  | forwardE
  | lossE
  | backwardE
  | stepE
deriving DecidableEq, Repr

/-- The callables `train_ANN_model` receives: the model applied to a batch's
features, the loss on the resulting output, the gradient that `backward`
adds to the accumulators, and the optimizer's `step`.  `P` is the parameter
(and gradient/velocity) state, `B` a mini-batch, `O` a model output, `L` a
loss value. -/
structure BatchFns (P B O L : Type) where
  modelOut : P → B → O
  lossOf : O → B → L
  gradOf : P → B → P
  stepFn : P → Option P → P → P × Option P

/-- Mutable state threaded through the training loop: the model parameters,
the optimizer's (lazily created) momentum buffers, the gradient accumulators,
and the `train_losses` list. -/
structure LoopState (P L : Type) where
  params : P
  vel : Option P
  grads : P
  losses : List L

/-- The per-batch body of `train_ANN_model` (lines 88-96), transcribed in
source order, paired with the list of operations in order of occurrence. -/
def processBatch {P B O L : Type} [Zero P] [Add P] (fns : BatchFns P B O L)
    (s : LoopState P L) (b : B) : LoopState P L × List TrainEvent :=
  let g0 : P := 0
  let out := fns.modelOut s.params b
  let l := fns.lossOf out b
  let ls := s.losses ++ [l]
  let g := g0 + fns.gradOf s.params b
  let pv := fns.stepFn s.params s.vel g
  (⟨pv.1, pv.2, g, ls⟩,
    [.zeroGradE, .forwardE, .lossE, .backwardE, .stepE])

/-- One epoch: the inner `for batch_cnt, (features, labels) in enumerate(...)`
loop (line 76), processing the epoch's batches in order. -/
def runEpoch {P B O L : Type} [Zero P] [Add P] (fns : BatchFns P B O L)
    (s : LoopState P L) (batches : List B) : LoopState P L :=
  batches.foldl (fun st b => (processBatch fns st b).1) s

/-- The epoch loop `for epoch_cnt in range(num_epochs)` (line 75); epoch `e`
draws the batch list `batchesOf e` (a fresh shuffle each epoch). -/
def trainLoop {P B O L : Type} [Zero P] [Add P] (fns : BatchFns P B O L)
    (numEpochs : ℕ) (batchesOf : ℕ → List B) (s : LoopState P L) : LoopState P L :=
  (List.range numEpochs).foldl (fun st e => runEpoch fns st (batchesOf e)) s

/-- `train_ANN_model` (lines 67-102): starts from the given parameters with
no momentum buffers, zeroed gradient accumulators and an empty
`train_losses` list, and runs the epoch loop. -/
def train_ANN_model {P B O L : Type} [Zero P] [Add P] (fns : BatchFns P B O L)
    (numEpochs : ℕ) (batchesOf : ℕ → List B) (p0 : P) : LoopState P L :=
  trainLoop fns numEpochs batchesOf ⟨p0, none, 0, []⟩

/-! ### Evaluation loop (`test_ANN_model`, lines 105-130)

Runs under `torch.no_grad()`: per test batch, a forward pass, `torch.max`
along the class dimension for predicted labels, and extension of the
`predicted_labels` / `true_labels` lists.  The model parameters and the
optimizer state are only read, never written. -/

/-- Index of the row maximum, `torch.max(output, 1).indices`: the first
index attaining the maximal value. -/
def rowArgmax {α : Type} [LinearOrder α] {C : ℕ} [NeZero C] (row : Fin C → α) : Fin C :=
  (List.finRange C).foldl (fun best j => if row best < row j then j else best)
    ⟨0, Nat.pos_of_ne_zero (NeZero.ne C)⟩

/-- The model parameters together with the optimizer's momentum state: all
the mutable learning state visible to the evaluation loop. -/
structure NetState (α : Type) (inF hid C : ℕ) where
  model : MLP α inF hid C
  momBuf : Option (MLP α inF hid C)

/-- The body of the evaluation loop for one batch (lines 120-126): forward
pass on the batch's feature rows, argmax predictions, and the batch's
predicted and true label lists; the learning state is returned as received
(no mutation occurs under `torch.no_grad()`). -/
def testBatch {α : Type} [LinearOrderedField α] {inF hid C : ℕ} [NeZero C]
    (st : NetState α inF hid C)
    (features : List (Fin inF → α)) (labels : List ℕ) :
    NetState α inF hid C × (List ℕ × List ℕ) :=
  let out := MLP.forward st.model (fun i : Fin features.length => features.get i)
  let preds := (List.finRange features.length).map fun i => (rowArgmax (out i)).val
  (st, (preds, labels))

/-- `test_ANN_model` (lines 105-130): folds the evaluation body over the test
batches in their fixed order, extending `predicted_labels` and `true_labels`. -/
def test_ANN_model {α : Type} [LinearOrderedField α] {inF hid C : ℕ} [NeZero C]
    (st : NetState α inF hid C)
    (batches : List (List (Fin inF → α) × List ℕ)) :
    NetState α inF hid C × (List ℕ × List ℕ) :=
  batches.foldl
    (fun acc b =>
      let r := testBatch acc.1 b.1 b.2
      (r.1, (acc.2.1 ++ r.2.1, acc.2.2 ++ r.2.2)))
    (st, ([], []))

/-! ### Seeded program run (shuffling dataloader + training, lines 215 and 287)

`DataLoader(train_dataset, batch_size=64, shuffle=True)` reshuffles the
training set with the torch RNG at the start of every epoch and partitions
it into consecutive batches of up to `batch_size`.  The RNG is modelled as a
64-bit linear congruential generator seeded explicitly, so that every source
of randomness (parameter initialisation and shuffling) is a function of the
seed. -/

/-- One step of the 64-bit linear congruential generator modelling the RNG. -/
def lcg (s : ℕ) : ℕ :=
  (6364136223846793005 * s + 1442695040888963407) % (2 ^ 64)

/-- Fisher-Yates-style draw: repeatedly removes the element at position
`state % length`, advancing the RNG state each draw (`fuel` bounds the
recursion by the list length). -/
def shuffleAux {β : Type} : ℕ → ℕ → List β → List β
  | 0, _, _ => []
  | _ + 1, _, [] => []
  | fuel + 1, s, x :: xs =>
    let l := x :: xs
    let i := s % l.length
    l.getD i x :: shuffleAux fuel (lcg s) (l.eraseIdx i)

/-- A seeded shuffle of a list: the permutation the dataloader draws for one
epoch. -/
def shuffleList {β : Type} (s : ℕ) (xs : List β) : List β :=
  shuffleAux xs.length s xs

/-- Partition into consecutive chunks of up to `k` elements (the dataloader's
batching; the last batch may be smaller). -/
def chunksOf {β : Type} (k : ℕ) (xs : List β) : List (List β) :=
  go xs.length xs
where
  go : ℕ → List β → List (List β)
    | 0, _ => []
    | _ + 1, [] => []
    | fuel + 1, l => l.take k :: go fuel (l.drop k)

/-- A whole seeded training run: parameters initialised from the seed, epoch
`e` trained on the chunked shuffle drawn from the `e`-th RNG state, and the
chronological per-batch loss list returned (line 287's `train_loss`). -/
def trainRun {P O L : Type} {S : Type} [Zero P] [Add P]
    (fns : BatchFns P (List S) O L) (paramInit : ℕ → P)
    (numEpochs batchSize : ℕ) (data : List S) (seed : ℕ) : List L :=
  (train_ANN_model fns numEpochs
    (fun e => chunksOf batchSize (shuffleList (lcg^[e] (lcg seed)) data))
    (paramInit seed)).losses

/-! ### Helper lemmas -/

/-- Every member of a list is bounded by the list's `foldr max 0`. -/
theorem le_foldr_max {ys : List ℕ} {y : ℕ} (h : y ∈ ys) : y ≤ ys.foldr max 0 := by
  induction ys with
  | nil => cases h
  | cons a l ih =>
    rcases List.mem_cons.mp h with rfl | h'
    · exact le_max_left _ _
    · exact le_trans (ih h') (le_max_right _ _)

/-- Reading `np.bincount(ys)` at an in-range class index yields the
occurrence count of that class. -/
theorem npBincount_ok {ys : List ℕ} (hne : ys ≠ []) {c : ℕ}
    (hc : c ≤ ys.foldr max 0) :
    npGet (npBincount ys) c = .ok (ys.count c) := by
  unfold npBincount npGet
  rw [if_neg hne]
  have hlt : c < ((List.range (ys.foldr max 0 + 1)).map fun c => ys.count c).length := by
    simp only [List.length_map, List.length_range]
    omega
  rw [dif_pos hlt]
  simp [List.get_eq_getElem]

/-! ### Claim theorems -/

/-- C1: the classifier's forward pass on an `[N, inF]` batch yields, at every
row `i : Fin N` and class `j : Fin C` of its `[N, C]` output, exactly
`(ReLU(x·W1ᵀ + b1)·W2ᵀ + b2)[i, j]` — the outer layer is affine, so no
activation or normalization is applied to the returned scores. -/
theorem forward_closed_form {α : Type} [LinearOrderedField α] {N inF hid C : ℕ}
    (m : MLP α inF hid C) (x : Fin N → Fin inF → α) (i : Fin N) (j : Fin C) :
    MLP.forward m x i j =
      (∑ k, max 0 ((∑ l, x i l * m.hidden1.weight k l) + m.hidden1.bias k) *
        m.output.weight j k) + m.output.bias j := rfl

/-- C3: with learning rate `alphaLR = 0.008` and momentum `gammaMom = 0.5`,
an optimizer step updates, elementwise and independently at every coordinate,
the velocity to `γ*v + g` and the parameter to `θ - α*(γ*v + g)`; a first
step (no momentum buffer yet, i.e. velocity 0) yields `θ - α*g` exactly. -/
theorem sgd_step_rule {ι : Type} (θ v g : ι → ℚ) (i : ι) :
    alphaLR = 0.008 ∧ gammaMom = 0.5 ∧
    (sgdStep alphaLR gammaMom θ (some v) g).2 i = gammaMom * v i + g i ∧
    (sgdStep alphaLR gammaMom θ (some v) g).1 i =
      θ i - alphaLR * (gammaMom * v i + g i) ∧
    (sgdStep alphaLR gammaMom θ none g).1 i = θ i - alphaLR * g i :=
  ⟨rfl, rfl, rfl, rfl, rfl⟩

/-- C7: whenever the predicted-positive count `TP + FP` is zero, the
precision computation is defined and returns the `zero_division` fallback 1
used at line 309 — no crash. -/
theorem precision_zero_denominator (yTrue yPred : List ℕ)
    (h : truePos yTrue yPred + falsePos yTrue yPred = 0) :
    precision_score yTrue yPred 1 = 1 := by
  unfold precision_score
  rw [if_pos h]

/-- Witness for C7 at `true = [1,0]`, `pred = [0,0]`: no positive
predictions, precision 1. -/
theorem precision_zero_denominator_witness :
    truePos [1, 0] [0, 0] + falsePos [1, 0] [0, 0] = 0 ∧
    precision_score [1, 0] [0, 0] 1 = 1 :=
  ⟨by decide, precision_zero_denominator [1, 0] [0, 0] (by decide)⟩

/-- C4: whenever both classes occur, the computed class weights are
`w[c] = N_total / (2 * count(label = c))`; on the concrete labels
`[0,0,0,1]` this gives `w0 = 4/6 = 2/3` and `w1 = 4/2 = 2`, with no
division warning. -/
theorem classWeights_formula :
    (∀ ys : List ℕ, 1 ∈ ys → ys.count 0 ≠ 0 →
      computeClassWeights ys =
        .ok ((.finite ((ys.length : ℚ) / (2 * (ys.count 0 : ℚ))), false),
             (.finite ((ys.length : ℚ) / (2 * (ys.count 1 : ℚ))), false))) ∧
    computeClassWeights [0, 0, 0, 1] =
      .ok ((.finite (2 / 3), false), (.finite 2, false)) := by
  constructor
  · intro ys h1 h0
    have hne : ys ≠ [] := List.ne_nil_of_mem h1
    have hmax : 1 ≤ ys.foldr max 0 := le_foldr_max h1
    have hc1 : ys.count 1 ≠ 0 := by
      have := List.count_pos_iff.mpr h1
      omega
    have g0 : npGet (npBincount ys) 0 = .ok (ys.count 0) :=
      npBincount_ok hne (Nat.zero_le _)
    have g1 : npGet (npBincount ys) 1 = .ok (ys.count 1) :=
      npBincount_ok hne hmax
    have h2c0 : ¬(2 * ys.count 0 = 0) := by omega
    have h2c1 : ¬(2 * ys.count 1 = 0) := by omega
    unfold computeClassWeights
    rw [g0, g1]
    show Except.ok
      (npDivNat ys.length (2 * ys.count 0), npDivNat ys.length (2 * ys.count 1)) = _
    unfold npDivNat
    rw [if_neg h2c0, if_neg h2c1]
    push_cast
    rfl
  · simp [computeClassWeights, npBincount, npGet, npDivNat, List.range_succ,
      List.count_cons, Except.bind]
    norm_num

/-- Witness for C4's general formula at the labels `[0,0,0,1]`. -/
theorem classWeights_formula_witness :
    (1 ∈ [0, 0, 0, 1] ∧ List.count 0 [0, 0, 0, 1] ≠ 0) ∧
    computeClassWeights [0, 0, 0, 1] =
      .ok ((.finite ((4 : ℚ) / (2 * 3)), false), (.finite ((4 : ℚ) / (2 * 1)), false)) :=
  ⟨⟨by decide, by decide⟩, by
    have h := classWeights_formula.1 [0, 0, 0, 1] (by decide) (by decide)
    simpa using h⟩

/-- C8 counterexample: on the labels `[1, 1]` (class 0 absent from training),
the class-weight computation does not fail — it returns `w0 = inf` (with
only a runtime warning), and this `inf` flows into the training weights. -/
theorem classWeights_missing0_counterexample :
    computeClassWeights [1, 1] =
      .ok ((.inf, true), (.finite (1 / 2), false)) := by
  simp [computeClassWeights, npBincount, npGet, npDivNat, List.range_succ,
    List.count_cons, Except.bind]
  norm_num

/-- C8 amended: if class 1 is absent (all labels are 0), reading
`class_counts[1]` fails fatally with `IndexError`; if instead class 0 is
absent, the division by zero yields `w0 = inf` together with a runtime
warning, and that `inf` weight is propagated onward. -/
theorem classWeights_degenerate :
    (∀ ys : List ℕ, ys ≠ [] → ys.foldr max 0 = 0 →
      computeClassWeights ys = .error "IndexError") ∧
    (∀ ys : List ℕ, 1 ∈ ys → ys.count 0 = 0 →
      computeClassWeights ys =
        .ok ((.inf, true),
             (.finite ((ys.length : ℚ) / (2 * (ys.count 1 : ℚ))), false))) := by
  constructor
  · intro ys hne hmax0
    have g0 : npGet (npBincount ys) 0 = .ok (ys.count 0) :=
      npBincount_ok hne (Nat.zero_le _)
    have g1 : npGet (npBincount ys) 1 = .error "IndexError" := by
      unfold npBincount npGet
      rw [if_neg hne]
      rw [dif_neg]
      simp [hmax0]
    unfold computeClassWeights
    rw [g0, g1]
    rfl
  · intro ys h1 h0
    have hne : ys ≠ [] := List.ne_nil_of_mem h1
    have hmax : 1 ≤ ys.foldr max 0 := le_foldr_max h1
    have hc1 : ys.count 1 ≠ 0 := by
      have := List.count_pos_iff.mpr h1
      omega
    have hlen : ys.length ≠ 0 := by
      cases ys with
      | nil => exact absurd rfl hne
      | cons a l => simp
    have g0 : npGet (npBincount ys) 0 = .ok (ys.count 0) :=
      npBincount_ok hne (Nat.zero_le _)
    have g1 : npGet (npBincount ys) 1 = .ok (ys.count 1) :=
      npBincount_ok hne hmax
    unfold computeClassWeights
    rw [g0, g1]
    show Except.ok
      (npDivNat ys.length (2 * ys.count 0), npDivNat ys.length (2 * ys.count 1)) = _
    rw [h0]
    unfold npDivNat
    rw [if_pos (by norm_num), if_neg hlen, if_neg (by omega : ¬(2 * ys.count 1 = 0))]
    push_cast
    rfl

/-- Witness for C8's amended statement: all-zero labels fail with
`IndexError`; all-one labels yield an `inf` weight with a warning. -/
theorem classWeights_degenerate_witness :
    computeClassWeights [0, 0] = .error "IndexError" ∧
    computeClassWeights [1, 1] =
      .ok ((.inf, true), (.finite ((2 : ℚ) / (2 * 2)), false)) := by
  constructor
  · exact classWeights_degenerate.1 [0, 0] (by decide) rfl
  · have h := classWeights_degenerate.2 [1, 1] (by decide) (by decide)
    simpa using h

/-! ### Concrete loop instantiations over `ℚ`, for explicit evaluations -/

/-- Tiny concrete loop callables over `ℚ` (scalar parameter, scalar batch). -/
def demoFns : BatchFns ℚ ℚ ℚ ℚ where
  modelOut p b := p * b
  lossOf o b := o + b
  gradOf p b := p + b
  stepFn p _v g := (p - alphaLR * g, some g)

/-- Tiny concrete loop callables over `ℚ` with list-shaped batches. -/
def demoFnsL : BatchFns ℚ (List ℚ) ℚ ℚ where
  modelOut p b := p * b.sum
  lossOf o b := o + b.length
  gradOf p b := p + b.sum
  stepFn p _v g := (p - alphaLR * g, some g)

/-- C5 counterexample: the per-batch event order of the training-loop body
is not forward → loss → reset → backward → step; the gradient reset comes
first (line 88 precedes lines 89-96). -/
theorem trainOrder_counterexample :
    (processBatch demoFns ⟨1, none, 0, []⟩ 1).2 ≠
      [TrainEvent.forwardE, TrainEvent.lossE, TrainEvent.zeroGradE,
       TrainEvent.backwardE, TrainEvent.stepE] := by
  decide

/-- C5 amended: each batch performs gradient reset, then forward pass, then
loss, then backward pass, then optimizer step; the reset still precedes the
backward pass, so the gradients the step consumes are exactly the current
batch's gradient, and the resulting state is independent of whatever
gradient accumulator value the batch started from. -/
theorem trainOrder_amended {P B O L : Type} [AddMonoid P] (fns : BatchFns P B O L)
    (s : LoopState P L) (b : B) (g' : P) :
    (processBatch fns s b).2 =
      [TrainEvent.zeroGradE, TrainEvent.forwardE, TrainEvent.lossE,
       TrainEvent.backwardE, TrainEvent.stepE] ∧
    (processBatch fns s b).1.grads = fns.gradOf s.params b ∧
    (processBatch fns ⟨s.params, s.vel, g', s.losses⟩ b).1 =
      (processBatch fns s b).1 :=
  ⟨rfl, zero_add _, rfl⟩

/-! ### Loss-list bookkeeping lemmas -/

/-- Each processed batch appends exactly one loss entry at the end. -/
theorem processBatch_losses {P B O L : Type} [Zero P] [Add P]
    (fns : BatchFns P B O L) (s : LoopState P L) (b : B) :
    (processBatch fns s b).1.losses =
      s.losses ++ [fns.lossOf (fns.modelOut s.params b) b] := rfl

/-- An epoch adds one loss entry per batch. -/
theorem runEpoch_losses_length {P B O L : Type} [Zero P] [Add P]
    (fns : BatchFns P B O L) :
    ∀ (batches : List B) (s : LoopState P L),
      (runEpoch fns s batches).losses.length = s.losses.length + batches.length := by
  intro batches
  induction batches with
  | nil => intro s; rfl
  | cons b bs ih =>
    intro s
    show (runEpoch fns ((processBatch fns s b).1) bs).losses.length = _
    rw [ih]
    have h1 : ((processBatch fns s b).1).losses.length = s.losses.length + 1 := by
      rw [processBatch_losses]
      simp
    rw [h1]
    simp
    omega

/-- The whole loop adds, per epoch, one loss entry per batch of that epoch. -/
theorem trainLoop_losses_length {P B O L : Type} [Zero P] [Add P]
    (fns : BatchFns P B O L) (batchesOf : ℕ → List B) :
    ∀ (n : ℕ) (s : LoopState P L),
      (trainLoop fns n batchesOf s).losses.length =
        s.losses.length + ∑ e ∈ Finset.range n, (batchesOf e).length := by
  intro n
  induction n with
  | zero => intro s; simp [trainLoop]
  | succ n ih =>
    intro s
    show (((List.range (n + 1)).foldl _ s)).losses.length = _
    rw [List.range_succ, List.foldl_append]
    show (runEpoch fns (trainLoop fns n batchesOf s) (batchesOf n)).losses.length = _
    rw [runEpoch_losses_length, ih, Finset.sum_range_succ]
    omega

/-- C10: with `B` batches per epoch, the training loop's returned loss list
has exactly `num_epochs * B` entries — one per processed batch, appended in
chronological order. -/
theorem trainLosses_length {P B O L : Type} [Zero P] [Add P]
    (fns : BatchFns P B O L) (numEpochs Bn : ℕ) (batchesOf : ℕ → List B) (p0 : P)
    (hB : ∀ e, (batchesOf e).length = Bn) :
    (train_ANN_model fns numEpochs batchesOf p0).losses.length = numEpochs * Bn ∧
    ∀ (s : LoopState P L) (b : B),
      (processBatch fns s b).1.losses =
        s.losses ++ [fns.lossOf (fns.modelOut s.params b) b] := by
  constructor
  · unfold train_ANN_model
    rw [trainLoop_losses_length]
    simp only [hB, List.length_nil, Finset.sum_const, Finset.card_range,
      smul_eq_mul, zero_add]
  · intro s b
    rfl

/-- Witness for C10: three epochs of two batches yield six recorded losses. -/
theorem trainLosses_length_witness :
    (∀ e : ℕ, ((fun _ : ℕ => [(1 : ℚ), 2]) e).length = 2) ∧
    (train_ANN_model demoFns 3 (fun _ => [(1 : ℚ), 2]) 0).losses.length = 3 * 2 :=
  ⟨fun _ => rfl, (trainLosses_length demoFns 3 2 (fun _ => [1, 2]) 0 fun _ => rfl).1⟩

/-- C9: a training run is a pure function of the seed (which drives both
parameter initialisation and the per-epoch shuffles) and the inputs, so two
runs with equal seeds and equal data produce identical loss sequences. -/
theorem trainRun_deterministic {P O L S : Type} [Zero P] [Add P]
    (fns : BatchFns P (List S) O L) (paramInit : ℕ → P)
    (numEpochs batchSize : ℕ) (data : List S) (s₁ s₂ : ℕ) (h : s₁ = s₂) :
    trainRun fns paramInit numEpochs batchSize data s₁ =
      trainRun fns paramInit numEpochs batchSize data s₂ := by
  rw [h]

/-- Witness for C9 at seed 42 on a three-sample dataset. -/
theorem trainRun_deterministic_witness :
    trainRun demoFnsL (fun s => (s : ℚ)) 2 2 [1, 2, 3] 42 =
      trainRun demoFnsL (fun s => (s : ℚ)) 2 2 [1, 2, 3] 42 :=
  trainRun_deterministic demoFnsL (fun s => (s : ℚ)) 2 2 [1, 2, 3] 42 42 rfl

/-- C6: the evaluation loop returns the network state it was given — every
weight matrix, bias vector and momentum buffer is unchanged; evaluation is
forward-pass inference only. -/
theorem test_ANN_model_frame {α : Type} [LinearOrderedField α] {inF hid C : ℕ}
    [NeZero C] (st : NetState α inF hid C)
    (batches : List (List (Fin inF → α) × List ℕ)) :
    (test_ANN_model st batches).1 = st := by
  have key : ∀ (bs : List (List (Fin inF → α) × List ℕ))
      (acc : NetState α inF hid C × (List ℕ × List ℕ)),
      (bs.foldl (fun acc b =>
        let r := testBatch acc.1 b.1 b.2
        (r.1, (acc.2.1 ++ r.2.1, acc.2.2 ++ r.2.2))) acc).1 = acc.1 := by
    intro bs
    induction bs with
    | nil => intro acc; rfl
    | cons b bs ih => intro acc; exact ih _
  exact key batches (st, ([], []))

/-- C2 counterexample: on the all-zero `2×2` score matrix with labels
`[0, 1]` and class weights `[1, 3]`, the implemented loss is `log 2` while
the claimed arithmetic-mean formula gives `2 log 2`; they differ. -/
theorem crossEntropy_mean_counterexample :
    crossEntropyLoss (![1, 3]) (fun _ _ => (0 : ℝ)) ![0, 1] ≠
      specMeanLoss ![1, 3] (fun _ _ => (0 : ℝ)) ![0, 1] := by
  have hlog : (0 : ℝ) < Real.log 2 := Real.log_pos (by norm_num)
  simp only [crossEntropyLoss, specMeanLoss, sampleCE, logSumExp,
    Fin.sum_univ_two, Real.exp_zero, Matrix.cons_val_zero, Matrix.cons_val_one,
    Matrix.head_cons, Nat.cast_ofNat]
  norm_num
  intro h
  have h2 : Real.log (1 / 2) = -Real.log 2 := by
    rw [one_div, Real.log_inv]
  rw [h2] at h
  linarith

/-- C2 amended: the loss equals the weighted per-sample negative
log-softmax terms `w[y_i] * (-log(exp x_{i,y_i} / ∑_j exp x_{i,j}))` summed
and divided by the sum of the selected weights `∑_i w[y_i]` (PyTorch's
weighted mean), not by the sample count `N`. -/
theorem crossEntropyLoss_closed_form {N C : ℕ} (w : Fin C → ℝ)
    (x : Fin N → Fin C → ℝ) (y : Fin N → Fin C) :
    crossEntropyLoss w x y =
      (∑ i, w (y i) * (-(Real.log (Real.exp (x i (y i)) / ∑ j, Real.exp (x i j))))) /
        (∑ i, w (y i)) := by
  unfold crossEntropyLoss sampleCE logSumExp
  congr 1
  refine Finset.sum_congr rfl fun i _ => ?_
  have hne : Nonempty (Fin C) := ⟨y i⟩
  have hS : (0 : ℝ) < ∑ j, Real.exp (x i j) :=
    Finset.sum_pos (fun j _ => Real.exp_pos _) Finset.univ_nonempty
  rw [Real.log_div (Real.exp_ne_zero _) (ne_of_gt hS), Real.log_exp]
  ring

/-- A tiny concrete network state over `ℚ` (one input, one hidden unit, two
classes, all parameters zero, no momentum buffers yet). -/
def demoNet : NetState ℚ 1 1 2 where
  model :=
    { hidden1 := { weight := fun _ _ => 0, bias := fun _ => 0 }
      output := { weight := fun _ _ => 0, bias := fun _ => 0 } }
  momBuf := none

/-- Witness for C6: evaluating one single-sample test batch leaves the
concrete network state untouched. -/
theorem test_ANN_model_frame_witness :
    (test_ANN_model demoNet [([fun _ => 1], [0])]).1 = demoNet :=
  test_ANN_model_frame demoNet [([fun _ => 1], [0])]
